import Mathlib

/-!
Shallow embedding of the SSE configuration client (`src/listener.rs`,
`src/models.rs`) together with the collaborators it uses, and proofs of the
specification's testable properties against it.

Text is modelled as `List Char`, byte streams as `List Nat` (each entry one
byte), and machine integers as `Nat` with explicit `% 2 ^ 64` where the Rust
code computes in `u64`.
-/

/-! ## Text utilities (Rust `str` operations used by the listener) -/

/-- Whitespace predicate of Rust `char::is_whitespace` (Unicode `White_Space`),
used by `str::trim`. -/
def isRustWhitespace (c : Char) : Bool :=
  let n := c.toNat
  (9 ≤ n && n ≤ 13) || n == 32 || n == 0x85 || n == 0xA0 || n == 0x1680 ||
  (0x2000 ≤ n && n ≤ 0x200A) || n == 0x2028 || n == 0x2029 ||
  n == 0x202F || n == 0x205F || n == 0x3000

/-- Rust `str::trim`: remove leading and trailing whitespace. -/
def rustTrim (s : List Char) : List Char :=
  ((s.dropWhile isRustWhitespace).reverse.dropWhile isRustWhitespace).reverse

/-- The SSE frame marker `"data: "` that `listener.rs` tests for. -/
def dataTag : List Char := ['d', 'a', 't', 'a', ':', ' ']

/-- Rust `text.starts_with("data: ")`. -/
def startsWithData : List Char → Bool
  | 'd' :: 'a' :: 't' :: 'a' :: ':' :: ' ' :: _ => true
  | _ => false

/-- Rust `text.trim_start_matches("data: ")`: repeatedly remove the leading
marker while it is present. -/
def trimStartMatchesData : List Char → List Char
  | 'd' :: 'a' :: 't' :: 'a' :: ':' :: ' ' :: rest => trimStartMatchesData rest
  | s => s

/-- Concatenation of `n` copies of the `"data: "` marker. -/
def repeatDataTag : Nat → List Char
  | 0 => []
  | n + 1 => dataTag ++ repeatDataTag n

/-! ## UTF-8 decoding (Rust `String::from_utf8`) -/

/-- A UTF-8 continuation byte, `0x80 ..= 0xBF`. -/
def utf8Cont (b : Nat) : Bool := 0x80 ≤ b && b ≤ 0xBF

/-- UTF-8 validation and decoding as performed by Rust `String::from_utf8`:
well-formed sequences (no overlong forms, no surrogates, at most U+10FFFF)
decode to their scalar values; anything else is rejected. -/
def utf8Decode : List Nat → Option (List Char)
  | [] => some []
  | b1 :: rest =>
    if b1 ≤ 0x7F then
      (utf8Decode rest).map (fun cs => Char.ofNat b1 :: cs)
    else if 0xC2 ≤ b1 && b1 ≤ 0xDF then
      match rest with
      | b2 :: rest2 =>
        if utf8Cont b2 then
          (utf8Decode rest2).map
            (fun cs => Char.ofNat ((b1 - 0xC0) * 0x40 + (b2 - 0x80)) :: cs)
        else none
      | [] => none
    else if 0xE0 ≤ b1 && b1 ≤ 0xEF then
      match rest with
      | b2 :: b3 :: rest3 =>
        let lo2 := if b1 == 0xE0 then 0xA0 else 0x80
        let hi2 := if b1 == 0xED then 0x9F else 0xBF
        if (lo2 ≤ b2 && b2 ≤ hi2) && utf8Cont b3 then
          (utf8Decode rest3).map
            (fun cs =>
              Char.ofNat ((b1 - 0xE0) * 0x1000 + (b2 - 0x80) * 0x40 + (b3 - 0x80)) :: cs)
        else none
      | _ => none
    else if 0xF0 ≤ b1 && b1 ≤ 0xF4 then
      match rest with
      | b2 :: b3 :: b4 :: rest4 =>
        let lo2 := if b1 == 0xF0 then 0x90 else 0x80
        let hi2 := if b1 == 0xF4 then 0x8F else 0xBF
        if (lo2 ≤ b2 && b2 ≤ hi2) && utf8Cont b3 && utf8Cont b4 then
          (utf8Decode rest4).map
            (fun cs =>
              Char.ofNat ((b1 - 0xF0) * 0x40000 + (b2 - 0x80) * 0x1000 +
                (b3 - 0x80) * 0x40 + (b4 - 0x80)) :: cs)
        else none
      | _ => none
    else none

/-- The text the listener works on for one chunk:
`String::from_utf8(bytes.to_vec()).unwrap_or_else(|_| "".to_string())`. -/
def textOf (bytes : List Nat) : List Char :=
  match utf8Decode bytes with
  | some t => t
  | none => []

/-! ## JSON values and the decode capability

`listener.rs` decodes payloads with `serde_json::from_slice::<ServerConfig>`.
`serde_json` is an external collaborator of the repository, so its data model
and parser are modelled from the spec here (see the doc comments below), while
the `ServerConfig` shape itself is translated from `src/models.rs`. -/

/-- Modelled from the spec: the structured value of §3 — "the union of: null,
boolean, number, string, ordered sequence of structured values, mapping of
string to structured value" (`serde_json::Value`). Numbers keep their source
lexeme; no floating-point arithmetic is performed on them. -/
inductive Json where
  | null
  | bool (b : Bool)
  | num (lexeme : List Char)
  | str (s : List Char)
  | arr (elems : List Json)
  | obj (fields : List (List Char × Json))

/-- Left brace character, written via its code point. -/
def lbrace : Char := Char.ofNat 123

/-- Right brace character, written via its code point. -/
def rbrace : Char := Char.ofNat 125

/-- Double-quote character, written via its code point. -/
def quoteChar : Char := Char.ofNat 34

/-- Backslash character, written via its code point. -/
def backslashChar : Char := Char.ofNat 92

/-- JSON insignificant whitespace accepted between tokens. -/
def jsonWs (c : Char) : Bool := c == ' ' || c == '\t' || c == '\n' || c == '\r'

/-- Skip insignificant JSON whitespace. -/
def skipWs (s : List Char) : List Char := s.dropWhile jsonWs

/-- ASCII decimal digit test. -/
def isDigitChar (c : Char) : Bool := 48 ≤ c.toNat && c.toNat ≤ 57

/-- Value of one hexadecimal digit, if any. -/
def hexVal (c : Char) : Option Nat :=
  let n := c.toNat
  if 48 ≤ n && n ≤ 57 then some (n - 48)
  else if 97 ≤ n && n ≤ 102 then some (n - 87)
  else if 65 ≤ n && n ≤ 70 then some (n - 55)
  else none

/-- Modelled from the spec: JSON string body parsing of the decode capability
("bytes → typed value or error"), after the opening quote. Handles the JSON
escapes including `\uXXXX` with surrogate pairs; unescaped control characters
are rejected. Returns the decoded characters and the remaining input. -/
def parseStringRest : Nat → List Char → Option (List Char × List Char)
  | 0, _ => none
  | _, [] => none
  | fuel + 1, c :: rest =>
    if c == quoteChar then some ([], rest)
    else if c == backslashChar then
      match rest with
      | [] => none
      | e :: rest2 =>
        if e == quoteChar then
          (parseStringRest fuel rest2).map (fun p => (quoteChar :: p.1, p.2))
        else if e == backslashChar then
          (parseStringRest fuel rest2).map (fun p => (backslashChar :: p.1, p.2))
        else if e == '/' then
          (parseStringRest fuel rest2).map (fun p => ('/' :: p.1, p.2))
        else if e == 'b' then
          (parseStringRest fuel rest2).map (fun p => (Char.ofNat 8 :: p.1, p.2))
        else if e == 'f' then
          (parseStringRest fuel rest2).map (fun p => (Char.ofNat 12 :: p.1, p.2))
        else if e == 'n' then
          (parseStringRest fuel rest2).map (fun p => ('\n' :: p.1, p.2))
        else if e == 'r' then
          (parseStringRest fuel rest2).map (fun p => ('\r' :: p.1, p.2))
        else if e == 't' then
          (parseStringRest fuel rest2).map (fun p => ('\t' :: p.1, p.2))
        else if e == 'u' then
          match rest2 with
          | h1 :: h2 :: h3 :: h4 :: rest6 =>
            match hexVal h1, hexVal h2, hexVal h3, hexVal h4 with
            | some v1, some v2, some v3, some v4 =>
              let cp := v1 * 4096 + v2 * 256 + v3 * 16 + v4
              if 0xD800 ≤ cp && cp ≤ 0xDBFF then
                match rest6 with
                | bs :: u :: g1 :: g2 :: g3 :: g4 :: rest12 =>
                  if bs == backslashChar && u == 'u' then
                    match hexVal g1, hexVal g2, hexVal g3, hexVal g4 with
                    | some w1, some w2, some w3, some w4 =>
                      let lo := w1 * 4096 + w2 * 256 + w3 * 16 + w4
                      if 0xDC00 ≤ lo && lo ≤ 0xDFFF then
                        (parseStringRest fuel rest12).map
                          (fun p =>
                            (Char.ofNat (0x10000 + (cp - 0xD800) * 0x400 + (lo - 0xDC00)) :: p.1,
                              p.2))
                      else none
                    | _, _, _, _ => none
                  else none
                | _ => none
              else if 0xDC00 ≤ cp && cp ≤ 0xDFFF then none
              else (parseStringRest fuel rest6).map (fun p => (Char.ofNat cp :: p.1, p.2))
            | _, _, _, _ => none
          | _ => none
        else none
    else if c.toNat < 0x20 then none
    else (parseStringRest fuel rest).map (fun p => (c :: p.1, p.2))

/-- Modelled from the spec: JSON number token of the decode capability,
`-? int frac? exp?` with no leading zeros. Returns the lexeme and the rest. -/
def parseNumberToken (s : List Char) : Option (List Char × List Char) :=
  let (neg, s1) : List Char × List Char :=
    match s with
    | '-' :: r => (['-'], r)
    | _ => ([], s)
  match s1 with
  | [] => none
  | c :: r =>
    if c == '0' then
      let (intPart, s2) : List Char × List Char := (['0'], r)
      let (fracPart, s3) : List Char × List Char :=
        match s2 with
        | '.' :: r2 =>
          let ds := r2.takeWhile isDigitChar
          if ds.isEmpty then ([], s2) else ('.' :: ds, r2.dropWhile isDigitChar)
        | _ => ([], s2)
      if (match s3 with | '.' :: _ => true | _ => false) then none
      else
        match s3 with
        | e :: r3 =>
          if e == 'e' || e == 'E' then
            let (sgn, r4) : List Char × List Char :=
              match r3 with
              | '+' :: r4 => (['+'], r4)
              | '-' :: r4 => (['-'], r4)
              | _ => ([], r3)
            let ds := r4.takeWhile isDigitChar
            if ds.isEmpty then none
            else some (neg ++ intPart ++ fracPart ++ e :: sgn ++ ds, r4.dropWhile isDigitChar)
          else some (neg ++ intPart ++ fracPart, s3)
        | [] => some (neg ++ intPart ++ fracPart, s3)
    else if isDigitChar c then
      let ds := (c :: r).takeWhile isDigitChar
      let s2 := (c :: r).dropWhile isDigitChar
      let (fracPart, s3) : List Char × List Char :=
        match s2 with
        | '.' :: r2 =>
          let fs := r2.takeWhile isDigitChar
          if fs.isEmpty then ([], s2) else ('.' :: fs, r2.dropWhile isDigitChar)
        | _ => ([], s2)
      if (match s3 with | '.' :: _ => true | _ => false) then none
      else
        match s3 with
        | e :: r3 =>
          if e == 'e' || e == 'E' then
            let (sgn, r4) : List Char × List Char :=
              match r3 with
              | '+' :: r4 => (['+'], r4)
              | '-' :: r4 => (['-'], r4)
              | _ => ([], r3)
            let es := r4.takeWhile isDigitChar
            if es.isEmpty then none
            else some (neg ++ ds ++ fracPart ++ e :: sgn ++ es, r4.dropWhile isDigitChar)
          else some (neg ++ ds ++ fracPart, s3)
        | [] => some (neg ++ ds ++ fracPart, s3)
    else none

mutual

/-- Modelled from the spec: recursive descent for one JSON value of the decode
capability ("bytes → typed value or error"); `fuel` bounds the recursion and is
chosen generously at the top entry point. -/
def parseValue : Nat → List Char → Option (Json × List Char)
  | 0, _ => none
  | fuel + 1, s =>
    match skipWs s with
    | [] => none
    | c :: rest =>
      if c == 'n' then
        match rest with
        | 'u' :: 'l' :: 'l' :: r => some (.null, r)
        | _ => none
      else if c == 't' then
        match rest with
        | 'r' :: 'u' :: 'e' :: r => some (.bool true, r)
        | _ => none
      else if c == 'f' then
        match rest with
        | 'a' :: 'l' :: 's' :: 'e' :: r => some (.bool false, r)
        | _ => none
      else if c == quoteChar then
        (parseStringRest fuel rest).map (fun p => (.str p.1, p.2))
      else if c == lbrace then
        match skipWs rest with
        | c2 :: r2 =>
          if c2 == rbrace then some (.obj [], r2)
          else (parseMembers fuel (skipWs rest)).map (fun p => (.obj p.1, p.2))
        | [] => none
      else if c == '[' then
        match skipWs rest with
        | c2 :: r2 =>
          if c2 == ']' then some (.arr [], r2)
          else (parseElements fuel (skipWs rest)).map (fun p => (.arr p.1, p.2))
        | [] => none
      else if c == '-' || isDigitChar c then
        (parseNumberToken (c :: rest)).map (fun p => (.num p.1, p.2))
      else none

/-- Modelled from the spec: the members of a JSON object after its opening
brace, up to and including the closing brace. -/
def parseMembers : Nat → List Char → Option (List (List Char × Json) × List Char)
  | 0, _ => none
  | fuel + 1, s =>
    match skipWs s with
    | c :: rest =>
      if c == quoteChar then
        match parseStringRest fuel rest with
        | some (key, r1) =>
          match skipWs r1 with
          | ':' :: r2 =>
            match parseValue fuel r2 with
            | some (v, r3) =>
              match skipWs r3 with
              | c4 :: r4 =>
                if c4 == ',' then
                  (parseMembers fuel r4).map (fun p => ((key, v) :: p.1, p.2))
                else if c4 == rbrace then some ([(key, v)], r4)
                else none
              | [] => none
            | none => none
          | _ => none
        | none => none
      else none
    | [] => none

/-- Modelled from the spec: the elements of a JSON array after its opening
bracket, up to and including the closing bracket. -/
def parseElements : Nat → List Char → Option (List Json × List Char)
  | 0, _ => none
  | fuel + 1, s =>
    match parseValue fuel s with
    | some (v, r1) =>
      match skipWs r1 with
      | c2 :: r2 =>
        if c2 == ',' then (parseElements fuel r2).map (fun p => (v :: p.1, p.2))
        else if c2 == ']' then some ([v], r2)
        else none
      | [] => none
    | none => none

end

/-- Modelled from the spec: the decode capability's syntax layer — parse a
whole JSON document, requiring the entire input to be consumed apart from
trailing whitespace (as `serde_json::from_slice` does). -/
def parseJson (s : List Char) : Option Json :=
  match parseValue (4 * s.length + 16) s with
  | some (v, rest) => if skipWs rest = [] then some v else none
  | none => none

/-! ## ServerConfig (`src/models.rs`) -/

/-- The decoded configuration of `src/models.rs`: a `BTreeMap<String, Value>`
under the field `settings`, modelled as a key-sorted association list. -/
structure ServerConfig where
  settings : List (List Char × Json)

/-- Strict lexicographic order on keys, as Rust orders `String`s in a
`BTreeMap` (byte order, which agrees with scalar-value order under UTF-8). -/
def keyLt : List Char → List Char → Bool
  | [], [] => false
  | [], _ :: _ => true
  | _ :: _, [] => false
  | a :: as, b :: bs =>
    if a.toNat < b.toNat then true
    else if b.toNat < a.toNat then false
    else keyLt as bs

/-- Insertion into the sorted association list modelling `BTreeMap::insert`:
an existing binding for the same key is overwritten. -/
def btreeInsert (k : List Char) (v : Json) : List (List Char × Json) → List (List Char × Json)
  | [] => [(k, v)]
  | (k1, v1) :: rest =>
    if keyLt k k1 then (k, v) :: (k1, v1) :: rest
    else if k == k1 then (k, v) :: rest
    else (k1, v1) :: btreeInsert k v rest

/-- Build the `BTreeMap` by inserting the object's entries in document order
(later duplicates overwrite earlier ones, as `BTreeMap::insert` does). -/
def btreeOfList (l : List (List Char × Json)) : List (List Char × Json) :=
  l.foldl (fun acc kv => btreeInsert kv.1 kv.2 acc) []

/-- The characters of the field name `settings`. -/
def settingsKey : List Char := ['s', 'e', 't', 't', 'i', 'n', 'g', 's']

/-- Deserialization of `ServerConfig` as derived in `src/models.rs`: the value
must be an object with exactly one `settings` entry (a duplicated field is an
error), whose value must itself be an object; unknown fields are ignored, and
the inner object becomes the `BTreeMap`. -/
def ServerConfig.fromJson : Json → Option ServerConfig
  | .obj fields =>
    match fields.filter (fun kv => kv.1 == settingsKey) with
    | [(_, .obj sfields)] => some ⟨btreeOfList sfields⟩
    | _ => none
  | _ => none

/-- The listener's decode step `serde_json::from_slice::<ServerConfig>` on the
payload text. -/
def fromSlice (payload : List Char) : Option ServerConfig :=
  (parseJson payload).bind ServerConfig.fromJson

/-- Extractor following the claim's words, for comparison with the code's
`extractPayload`: the payload is the remainder after the single leading
`"data: "` marker (its 6 characters dropped once), trimmed. -/
def specSingleExtract (text : List Char) : Option (List Char) :=
  if startsWithData text then some (rustTrim (text.drop 6)) else none

/-! ## The connection loop (`src/listener.rs`) -/

/-- One item yielded by `response.bytes_stream()`: either a byte chunk or a
stream read error (`reqwest::Error`). -/
inductive ChunkItem where
  | ok (bytes : List Nat)
  | err

/-- The outcome of one `client.get(url).send().await`: a connection-level
error, or a response with its success flag and (for a success status) the
chunk items the body stream will yield. -/
inductive AttemptOutcome where
  | connErr
  | response (success : Bool) (chunks : List ChunkItem)

/-- Modelled from the spec: the error type `ConfigError` lives in `errors.rs`,
which is declared by `lib.rs` but absent from the sources; §7's taxonomy and
the two constructors named by `listener.rs` give its shape. `request` carries a
transport error (`ConfigError::Request`), `generic` a message
(`ConfigError::GenericError`), and `build` is §7's `ClientBuildError`. -/
inductive ConfigError where
  | request
  | generic (msg : String)
  | build

/-- The message of the retries-exhausted error in `listener.rs`. -/
def maxRetriesMsg : String := "Maximum retries reached, giving up."

/-- Everything observable about one run of the listener: its return value, the
configurations passed to `update_handler` in order, the backoff delays slept
in order (in seconds), and the number of connection attempts made. -/
structure RunResult where
  result : Except ConfigError Unit
  handled : List ServerConfig
  sleeps : List Nat
  attempts : Nat

/-- The base delay constant `BASE_DELAY: u64 = 2` of `listener.rs`. -/
def BASE_DELAY : Nat := 2

/-- Modulus of Rust `u64` arithmetic. -/
def U64MOD : Nat := 2 ^ 64

/-- The per-chunk pipeline of the streaming `while` loop in `listener.rs`:
decode the bytes as text (empty on invalid UTF-8), recognise the `"data: "`
frame, and produce the trimmed payload if the frame is present. -/
def extractPayload (text : List Char) : Option (List Char) :=
  if startsWithData text then some (rustTrim (trimStartMatchesData text)) else none

/-- The configuration a single `Ok` chunk contributes: its extracted payload
decoded by `decode`, if both steps succeed. -/
def chunkConfig (decode : List Char → Option ServerConfig) (bytes : List Nat) :
    Option ServerConfig :=
  (extractPayload (textOf bytes)).bind decode

/-- The streaming `while let Some(item) = stream.next().await` loop of
`listener.rs` over the chunk items of one successful response: the handler
calls it makes in order, and whether it ended in a stream read error (which
aborts the loop at that item). -/
def processStream (decode : List Char → Option ServerConfig) :
    List ChunkItem → List ServerConfig × Bool
  | [] => ([], false)
  | .err :: _ => ([], true)
  | .ok bytes :: rest =>
    let res := processStream decode rest
    match chunkConfig decode bytes with
    | some c => (c :: res.1, res.2)
    | none => res

/-- The two ways a success-status response ends the outer loop in
`listener.rs`: a stream read error returns `Err(ConfigError::Request(e))`
after the handler calls made so far, and a cleanly drained stream breaks out
to `Ok(())`. -/
def streamResult (decode : List Char → Option ServerConfig) (chunks : List ChunkItem) :
    RunResult :=
  let res := processStream decode chunks
  ⟨if res.2 then .error .request else .ok (), res.1, [], 1⟩

/-- The `loop` of `start_listening_for_updates`, from the state where the
attempt counter holds `a` (so the attempt about to be made is number `a + 1`)
and `rem` retries remain after it, i.e. `rem = max_retries - (a + 1)` in
`Nat` subtraction; the source's `attempt >= max_retries` test at attempt
`a + 1` is exactly `rem = 0`. Connection attempt `a + 1` reads
`outcomes (a + 1)`: a failed send or a non-success status falls through to
the retry logic, a success status hands the body stream to `streamResult`.
The backoff delay is `BASE_DELAY.pow(attempt)` in `u64` arithmetic. -/
def loopGo (decode : List Char → Option ServerConfig) (outcomes : Nat → AttemptOutcome) :
    Nat → Nat → RunResult
  | a, 0 =>
    match outcomes (a + 1) with
    | .response true chunks => streamResult decode chunks
    | _ => ⟨.error (.generic maxRetriesMsg), [], [], 1⟩
  | a, rem + 1 =>
    match outcomes (a + 1) with
    | .response true chunks => streamResult decode chunks
    | _ =>
      let r := loopGo decode outcomes (a + 1) rem
      ⟨r.result, r.handled, (BASE_DELAY ^ (a + 1) % U64MOD) :: r.sleeps, r.attempts + 1⟩

/-- The public operation of `src/listener.rs`. `buildOk` is whether
`Client::builder().build()` succeeded (its failure is returned before any
connection attempt); `decode` is the decode capability (the real one is
`fromSlice`); `outcomes n` is what the transport does on the `n`-th
(1-indexed) connection attempt; `maxRetries` is the `max_retries` argument.
The loop starts with the attempt counter at `0`, so `maxRetries - 1`
retries remain after the first attempt. -/
def start_listening_for_updates (buildOk : Bool) (decode : List Char → Option ServerConfig)
    (outcomes : Nat → AttemptOutcome) (maxRetries : Nat) : RunResult :=
  if buildOk then loopGo decode outcomes 0 (maxRetries - 1)
  else ⟨.error .build, [], [], 0⟩

/-! ## Concrete data used by witnesses and counterexamples -/

/-- Payload text of a well-formed event: an object whose `settings` field is
the empty object. -/
def goodPayload : List Char :=
  [lbrace, quoteChar] ++ settingsKey ++ [quoteChar, ':', lbrace, rbrace, rbrace]

/-- Payload text that is valid JSON but has no `settings` field. -/
def timeoutPayload : List Char :=
  [lbrace, quoteChar, 't', 'i', 'm', 'e', 'o', 'u', 't', quoteChar, ':', '3', '0', rbrace]

/-- Payload text of a second well-formed event, with one `null` setting `a`. -/
def secondPayload : List Char :=
  [lbrace, quoteChar] ++ settingsKey ++
    [quoteChar, ':', lbrace, quoteChar, 'a', quoteChar, ':', 'n', 'u', 'l', 'l', rbrace, rbrace]

/-- ASCII text rendered as the bytes of one stream chunk. -/
def asciiChunk (s : List Char) : List Nat := s.map Char.toNat

/-- Chunk bytes carrying `goodPayload` in a `data: ` frame. -/
def goodChunk : List Nat := asciiChunk (dataTag ++ goodPayload)

/-- Chunk bytes carrying `secondPayload` in a `data: ` frame. -/
def secondChunk : List Nat := asciiChunk (dataTag ++ secondPayload)

/-- Chunk bytes carrying `timeoutPayload` in a `data: ` frame. -/
def timeoutChunk : List Nat := asciiChunk (dataTag ++ timeoutPayload)

/-- Chunk bytes carrying the unparseable payload `not-json` in a frame. -/
def notJsonChunk : List Nat := asciiChunk (dataTag ++ ['n', 'o', 't', '-', 'j', 's', 'o', 'n'])

/-- The configuration decoded from `goodPayload`. -/
def emptyConfig : ServerConfig := ⟨[]⟩

/-- The configuration decoded from `secondPayload`. -/
def aNullConfig : ServerConfig := ⟨[(['a'], Json.null)]⟩

/-! ## General lemmas about the embedding -/

/-- The prefix-stripping of `trim_start_matches`: every text is some number of
copies of the marker followed by a remainder that no longer starts with it. -/
theorem trimStartMatchesData_spec (t : List Char) :
    ∃ n, t = repeatDataTag n ++ trimStartMatchesData t ∧
      startsWithData (trimStartMatchesData t) = false := by
  induction t using trimStartMatchesData.induct with
  | case1 rest ih =>
    obtain ⟨n, hn, hs⟩ := ih
    refine ⟨n + 1, ?_, ?_⟩
    · rw [trimStartMatchesData, repeatDataTag, List.append_assoc, ← hn]
      rfl
    · rw [trimStartMatchesData]
      exact hs
  | case2 s h =>
    have h1 : trimStartMatchesData s = s := by
      unfold trimStartMatchesData
      split
      · exact (h _ rfl).elim
      · rfl
    have h2 : startsWithData s = false := by
      unfold startsWithData
      split
      · exact (h _ rfl).elim
      · rfl
    exact ⟨0, by rw [repeatDataTag, List.nil_append, h1], by rw [h1]; exact h2⟩

/-- Every run of the loop makes at least one connection attempt. -/
theorem loopGo_attempts_pos (decode : List Char → Option ServerConfig)
    (outcomes : Nat → AttemptOutcome) (a rem : Nat) :
    1 ≤ (loopGo decode outcomes a rem).attempts := by
  cases rem with
  | zero =>
    cases h : outcomes (a + 1) with
    | connErr => simp [loopGo, h]
    | response success chunks => cases success <;> simp [loopGo, h, streamResult]
  | succ rem =>
    cases h : outcomes (a + 1) with
    | connErr => simp [loopGo, h]
    | response success chunks => cases success <;> simp [loopGo, h, streamResult]

/-- Starting with `rem` retries left after the next attempt, the loop makes at
most `rem + 1` connection attempts. -/
theorem loopGo_attempts_le (decode : List Char → Option ServerConfig)
    (outcomes : Nat → AttemptOutcome) :
    ∀ rem a, (loopGo decode outcomes a rem).attempts ≤ rem + 1 := by
  intro rem
  induction rem with
  | zero =>
    intro a
    cases h : outcomes (a + 1) with
    | connErr => simp [loopGo, h]
    | response success chunks => cases success <;> simp [loopGo, h, streamResult]
  | succ rem ih =>
    intro a
    cases h : outcomes (a + 1) with
    | connErr =>
      have := ih (a + 1)
      simp [loopGo, h]
      omega
    | response success chunks =>
      cases success
      · have := ih (a + 1)
        simp [loopGo, h]
        omega
      · simp [loopGo, h, streamResult]

/-- The backoff delays of a run, in order: the `i`-th sleep happens after
failed attempt `i + 1` and equals `BASE_DELAY ^ (a + 1 + i)` in `u64`
arithmetic. -/
theorem loopGo_sleeps_eq (decode : List Char → Option ServerConfig)
    (outcomes : Nat → AttemptOutcome) :
    ∀ rem a, (loopGo decode outcomes a rem).sleeps =
      (List.range ((loopGo decode outcomes a rem).attempts - 1)).map
        (fun i => BASE_DELAY ^ (a + 1 + i) % U64MOD) := by
  intro rem
  induction rem with
  | zero =>
    intro a
    cases h : outcomes (a + 1) with
    | connErr => simp [loopGo, h]
    | response success chunks => cases success <;> simp [loopGo, h, streamResult]
  | succ rem ih =>
    intro a
    cases h : outcomes (a + 1) with
    | connErr =>
      have hpos := loopGo_attempts_pos decode outcomes (a + 1) rem
      obtain ⟨m, hm⟩ : ∃ m, (loopGo decode outcomes (a + 1) rem).attempts = m + 1 :=
        ⟨(loopGo decode outcomes (a + 1) rem).attempts - 1, by omega⟩
      have ihh := ih (a + 1)
      rw [hm] at ihh
      simp only [loopGo, h, hm]
      rw [Nat.add_sub_cancel, List.range_succ_eq_map, List.map_cons, List.map_map]
      simp only [Nat.add_zero]
      congr 1
      rw [ihh, Nat.add_sub_cancel]
      apply List.map_congr_left
      intro i _
      have : a + 1 + 1 + i = a + 1 + (i + 1) := by omega
      simp [Function.comp, this]
    | response success chunks =>
      cases success
      · have hpos := loopGo_attempts_pos decode outcomes (a + 1) rem
        obtain ⟨m, hm⟩ : ∃ m, (loopGo decode outcomes (a + 1) rem).attempts = m + 1 :=
          ⟨(loopGo decode outcomes (a + 1) rem).attempts - 1, by omega⟩
        have ihh := ih (a + 1)
        rw [hm] at ihh
        simp only [loopGo, h, hm]
        rw [Nat.add_sub_cancel, List.range_succ_eq_map, List.map_cons, List.map_map]
        simp only [Nat.add_zero]
        congr 1
        rw [ihh, Nat.add_sub_cancel]
        apply List.map_congr_left
        intro i _
        have : a + 1 + 1 + i = a + 1 + (i + 1) := by omega
        simp [Function.comp, this]
      · simp [loopGo, h, streamResult]

/-- The loop's behaviour from attempt counter `a` depends only on the outcomes
of attempts after `a`. -/
theorem loopGo_congr (decode : List Char → Option ServerConfig)
    (o1 o2 : Nat → AttemptOutcome) :
    ∀ rem a, (∀ m, a < m → o1 m = o2 m) →
      loopGo decode o1 a rem = loopGo decode o2 a rem := by
  intro rem
  induction rem with
  | zero =>
    intro a hx
    have h1 : o1 (a + 1) = o2 (a + 1) := hx (a + 1) (Nat.lt_succ_self a)
    simp [loopGo, h1]
  | succ rem ih =>
    intro a hx
    have h1 : o1 (a + 1) = o2 (a + 1) := hx (a + 1) (Nat.lt_succ_self a)
    have h2 : loopGo decode o1 (a + 1) rem = loopGo decode o2 (a + 1) rem :=
      ih (a + 1) (fun m hm => hx m (by omega))
    simp [loopGo, h1, h2]

/-- A run returns `Ok(())` exactly when its final connection attempt got a
success-status response whose stream ended without a read error. -/
theorem loopGo_result_ok_iff (decode : List Char → Option ServerConfig)
    (outcomes : Nat → AttemptOutcome) :
    ∀ rem a, ((loopGo decode outcomes a rem).result = .ok () ↔
      ∃ chunks, outcomes (a + (loopGo decode outcomes a rem).attempts) =
          .response true chunks ∧ (processStream decode chunks).2 = false) := by
  intro rem
  induction rem with
  | zero =>
    intro a
    cases h : outcomes (a + 1) with
    | connErr => simp [loopGo, h]
    | response success chunks =>
      cases success
      · simp [loopGo, h]
      · by_cases hb : (processStream decode chunks).2 <;>
          simp [loopGo, h, streamResult, hb]
  | succ rem ih =>
    intro a
    cases h : outcomes (a + 1) with
    | connErr =>
      have harith : a + ((loopGo decode outcomes (a + 1) rem).attempts + 1) =
          (a + 1) + (loopGo decode outcomes (a + 1) rem).attempts := by omega
      simp only [loopGo, h]
      rw [harith]
      exact ih (a + 1)
    | response success chunks =>
      cases success
      · have harith : a + ((loopGo decode outcomes (a + 1) rem).attempts + 1) =
            (a + 1) + (loopGo decode outcomes (a + 1) rem).attempts := by omega
        simp only [loopGo, h]
        rw [harith]
        exact ih (a + 1)
      · by_cases hb : (processStream decode chunks).2 <;>
          simp [loopGo, h, streamResult, hb]

/-- On a stream whose chunks each carry a decodable payload, the streaming
loop emits exactly those configurations in order and ends cleanly. -/
theorem processStream_forall2 (decode : List Char → Option ServerConfig) :
    ∀ (items : List (List Nat)) (cfgs : List ServerConfig),
      List.Forall₂ (fun bytes cfg => chunkConfig decode bytes = some cfg) items cfgs →
      processStream decode (items.map ChunkItem.ok) = (cfgs, false) := by
  intro items cfgs hf
  induction hf with
  | nil => rfl
  | cons h1 h2 ih => simp [processStream, ih, h1]

/-! ## Claim theorems -/

/-- C1 (amended): for `max_retries = k` the loop makes at most `max k 1`
connection attempts in total — so for `k ≥ 1` it never makes a `(k + 1)`-th
connect — and for `k = 0` no retry follows the first attempt (no backoff sleep
is performed). The unamended bound `k` fails at `k = 0`, where the code still
makes its first attempt before returning the retries-exhausted error. -/
theorem C1_thm (buildOk : Bool) (decode : List Char → Option ServerConfig)
    (outcomes : Nat → AttemptOutcome) (k : Nat) :
    (start_listening_for_updates buildOk decode outcomes k).attempts ≤ max k 1 ∧
    (k = 0 → (start_listening_for_updates buildOk decode outcomes k).sleeps = []) := by
  cases buildOk with
  | false => simp [start_listening_for_updates]
  | true =>
    simp only [start_listening_for_updates, if_pos]
    constructor
    · have := loopGo_attempts_le decode outcomes (k - 1) 0
      omega
    · intro hk
      subst hk
      have hs := loopGo_sleeps_eq decode outcomes 0 0
      have ha := loopGo_attempts_le decode outcomes 0 0
      have h0 : (loopGo decode outcomes 0 0).attempts - 1 = 0 := by omega
      rw [h0] at hs
      simpa using hs

/-- C1 witness: with `max_retries = 0` and a failing transport, the bound
`max 0 1 = 1` holds and no backoff sleep occurs. -/
theorem C1_witness :
    (start_listening_for_updates true fromSlice (fun _ => .connErr) 0).attempts ≤ 1 ∧
    (start_listening_for_updates true fromSlice (fun _ => .connErr) 0).sleeps = [] :=
  ⟨(C1_thm true fromSlice (fun _ => .connErr) 0).1,
   (C1_thm true fromSlice (fun _ => .connErr) 0).2 rfl⟩

/-- C1 counterexample: with `max_retries = 0` and every connect failing, the
run returns the retries-exhausted error after one connection attempt — not
after "at most 0" attempts as the claim states; a `(0 + 1)`-th connect does
happen. -/
theorem C1_counterexample :
    (start_listening_for_updates true fromSlice (fun _ => .connErr) 0).result =
      .error (.generic maxRetriesMsg) ∧
    (start_listening_for_updates true fromSlice (fun _ => .connErr) 0).attempts = 1 ∧
    ¬ ((start_listening_for_updates true fromSlice (fun _ => .connErr) 0).attempts ≤ 0) :=
  ⟨rfl, rfl, by decide⟩

/-- C2 (amended): a chunk whose text lacks the `data: ` marker yields no
payload, and a chunk with it yields the remainder after removing all
consecutive leading copies of the marker, trimmed — not just the single
first copy. -/
theorem C2_thm (t : List Char) :
    (startsWithData t = false → extractPayload t = none) ∧
    (startsWithData t = true → ∃ n r, 1 ≤ n ∧ t = repeatDataTag n ++ r ∧
      startsWithData r = false ∧ extractPayload t = some (rustTrim r)) := by
  constructor
  · intro h
    simp [extractPayload, h]
  · intro h
    obtain ⟨n, hn, hns⟩ := trimStartMatchesData_spec t
    refine ⟨n, trimStartMatchesData t, ?_, hn, hns, by simp [extractPayload, h]⟩
    cases n with
    | zero =>
      rw [repeatDataTag, List.nil_append] at hn
      rw [← hn] at hns
      rw [h] at hns
      exact absurd hns (by simp)
    | succ n => omega

/-- C2 witness: on the framed chunk text `data: x` the extractor yields the
remainder after the marker run. -/
theorem C2_witness :
    ∃ n r, 1 ≤ n ∧ (dataTag ++ ['x']) = repeatDataTag n ++ r ∧
      startsWithData r = false ∧
      extractPayload (dataTag ++ ['x']) = some (rustTrim r) :=
  (C2_thm (dataTag ++ ['x'])).2 rfl

/-- C2 counterexample: on the chunk text `data: data: x` the code's extractor
strips both marker copies and yields `x`, while the claimed single-prefix
extractor (`specSingleExtract`) yields `data: x`. -/
theorem C2_counterexample :
    extractPayload (dataTag ++ dataTag ++ ['x']) = some ['x'] ∧
    specSingleExtract (dataTag ++ dataTag ++ ['x']) = some (dataTag ++ ['x']) ∧
    extractPayload (dataTag ++ dataTag ++ ['x']) ≠
      specSingleExtract (dataTag ++ dataTag ++ ['x']) := by
  refine ⟨rfl, rfl, ?_⟩
  decide

/-- C3: the run's `i`-th backoff sleep (0-indexed) happens after failed
attempt `n = i + 1` (1-indexed) and lasts `BASE_DELAY ^ n` seconds computed in
64-bit unsigned arithmetic — 2, 4, 8, 16, … for attempts 1, 2, 3, 4 — so the
delay slept before attempt `n + 1` is `2 ^ n`. -/
theorem C3_thm (buildOk : Bool) (decode : List Char → Option ServerConfig)
    (outcomes : Nat → AttemptOutcome) (maxRetries : Nat) :
    (start_listening_for_updates buildOk decode outcomes maxRetries).sleeps =
      (List.range
          ((start_listening_for_updates buildOk decode outcomes maxRetries).attempts - 1)).map
        (fun i => BASE_DELAY ^ (i + 1) % U64MOD) := by
  cases buildOk with
  | false => simp [start_listening_for_updates]
  | true =>
    simp only [start_listening_for_updates, if_pos]
    rw [loopGo_sleeps_eq decode outcomes (maxRetries - 1) 0]
    apply List.map_congr_left
    intro i _
    have : 0 + 1 + i = i + 1 := by omega
    rw [this]

/-- C4: once a connection attempt has a success-status response, a read error
in its chunk stream makes the whole run return `ConfigError::Request`
immediately: the handler calls already made are kept, no backoff sleep
happens and no further connection attempt is made, whatever retry budget
`rem` remains. -/
theorem C4_thm (decode : List Char → Option ServerConfig)
    (outcomes : Nat → AttemptOutcome) (a rem : Nat) (chunks : List ChunkItem)
    (h : outcomes (a + 1) = .response true chunks)
    (herr : (processStream decode chunks).2 = true) :
    loopGo decode outcomes a rem =
      ⟨.error .request, (processStream decode chunks).1, [], 1⟩ := by
  cases rem <;> simp [loopGo, h, streamResult, herr]

/-- C4 witness: a stream with one good chunk and then a read error delivers
the one configuration, then fails with the request error after exactly one
attempt despite 7 retries remaining. -/
theorem C4_witness :
    loopGo fromSlice (fun _ => .response true [.ok goodChunk, .err]) 0 7 =
      ⟨.error .request, [emptyConfig], [], 1⟩ :=
  C4_thm fromSlice (fun _ => .response true [.ok goodChunk, .err]) 0 7
    [.ok goodChunk, .err] rfl rfl

/-- C5: a chunk whose payload fails to decode is a no-op for the streaming
loop — the rest of the stream is processed exactly as if the chunk were not
there, so every subsequent valid payload is still delivered. -/
theorem C5_thm (decode : List Char → Option ServerConfig) (bytes : List Nat)
    (p : List Char) (rest : List ChunkItem)
    (hx : extractPayload (textOf bytes) = some p) (hd : decode p = none) :
    processStream decode (.ok bytes :: rest) = processStream decode rest := by
  simp [processStream, chunkConfig, hx, hd]

/-- C5 witness: on chunks `data: not-json` then `data: {"settings":{}}` the
handler is invoked exactly once, for the second payload, and the stream ends
cleanly. -/
theorem C5_witness :
    processStream fromSlice [.ok notJsonChunk, .ok goodChunk] = ([emptyConfig], false) :=
  (C5_thm fromSlice notJsonChunk ['n', 'o', 't', '-', 'j', 's', 'o', 'n']
    [.ok goodChunk] rfl rfl).trans rfl

/-- C6: an attempt that gets a non-success status response behaves exactly as
one whose connect failed: the run is identical to the run in which that
attempt is a connection error, so the body chunks are never read, no handler
call arises from them, and the loop proceeds to backoff-and-retry unless
retries are exhausted. -/
theorem C6_thm (decode : List Char → Option ServerConfig)
    (o1 o2 : Nat → AttemptOutcome) (a rem : Nat) (chunks : List ChunkItem)
    (h1 : o1 (a + 1) = .response false chunks) (h2 : o2 (a + 1) = .connErr)
    (hrest : ∀ m, m ≠ a + 1 → o1 m = o2 m) :
    loopGo decode o1 a rem = loopGo decode o2 a rem := by
  cases rem with
  | zero => simp [loopGo, h1, h2]
  | succ rem =>
    have hc : loopGo decode o1 (a + 1) rem = loopGo decode o2 (a + 1) rem :=
      loopGo_congr decode o1 o2 rem (a + 1) (fun m hm => hrest m (by omega))
    simp [loopGo, h1, h2, hc]

/-- C6 witness: a first attempt answered with a non-success status carrying a
body chunk runs identically to a first attempt that fails to connect. -/
theorem C6_witness :
    loopGo fromSlice (fun n => if n = 1 then .response false [.ok goodChunk] else .connErr)
        0 1 =
      loopGo fromSlice (fun _ => .connErr) 0 1 :=
  C6_thm fromSlice (fun n => if n = 1 then .response false [.ok goodChunk] else .connErr)
    (fun _ => .connErr) 0 1 [.ok goodChunk] rfl rfl
    (fun m hm => by simp [hm])

/-- C7: the operation returns `Ok(())` exactly when some connection attempt —
necessarily the run's last — got a success-status response whose chunk stream
ended cleanly; every other terminating run carries exactly one terminal
error, the `result` field being `Except`-valued. -/
theorem C7_thm (buildOk : Bool) (decode : List Char → Option ServerConfig)
    (outcomes : Nat → AttemptOutcome) (maxRetries : Nat) :
    ((start_listening_for_updates buildOk decode outcomes maxRetries).result = .ok () ↔
      1 ≤ (start_listening_for_updates buildOk decode outcomes maxRetries).attempts ∧
      ∃ chunks,
        outcomes (start_listening_for_updates buildOk decode outcomes maxRetries).attempts =
          .response true chunks ∧ (processStream decode chunks).2 = false) := by
  cases buildOk with
  | false => simp [start_listening_for_updates]
  | true =>
    simp only [start_listening_for_updates, if_pos]
    have hiff := loopGo_result_ok_iff decode outcomes (maxRetries - 1) 0
    have hpos := loopGo_attempts_pos decode outcomes 0 (maxRetries - 1)
    rw [hiff]
    simp only [Nat.zero_add]
    exact ⟨fun h => ⟨hpos, h⟩, fun h => h.2⟩

/-- C8: a success-status connection whose chunks all carry decodable payloads
invokes the handler exactly once per chunk, with the decoded configurations in
chunk order — no reordering, batching or duplication — and returns `Ok(())`. -/
theorem C8_thm (decode : List Char → Option ServerConfig) (items : List (List Nat))
    (cfgs : List ServerConfig)
    (hall : List.Forall₂ (fun bytes cfg => chunkConfig decode bytes = some cfg) items cfgs)
    (outcomes : Nat → AttemptOutcome) (maxRetries : Nat)
    (h1 : outcomes 1 = .response true (items.map ChunkItem.ok)) :
    start_listening_for_updates true decode outcomes maxRetries = ⟨.ok (), cfgs, [], 1⟩ := by
  have hs := processStream_forall2 decode items cfgs hall
  simp only [start_listening_for_updates, if_pos]
  cases hM : maxRetries - 1 <;> simp [loopGo, h1, streamResult, hs]

/-- C8 witness: two valid payload chunks produce exactly the two decoded
configurations in order. -/
theorem C8_witness :
    start_listening_for_updates true fromSlice
        (fun _ => .response true [ChunkItem.ok goodChunk, ChunkItem.ok secondChunk]) 4 =
      ⟨.ok (), [emptyConfig, aNullConfig], [], 1⟩ :=
  C8_thm fromSlice [goodChunk, secondChunk] [emptyConfig, aNullConfig]
    (.cons rfl (.cons rfl .nil))
    (fun _ => .response true [ChunkItem.ok goodChunk, ChunkItem.ok secondChunk]) 4 rfl

/-- C9: a chunk whose bytes are not valid UTF-8 is processed as the empty
text, so it yields no payload, invokes no handler, does not fail the
connection, and the rest of the stream is processed unchanged. -/
theorem C9_thm (decode : List Char → Option ServerConfig) (bytes : List Nat)
    (rest : List ChunkItem) (h : utf8Decode bytes = none) :
    processStream decode (.ok bytes :: rest) = processStream decode rest := by
  simp [processStream, chunkConfig, textOf, h, extractPayload, startsWithData]

/-- C9 witness: the invalid byte `0xFF` chunk is skipped and the following
valid chunk is still delivered. -/
theorem C9_witness :
    processStream fromSlice [.ok [0xFF], .ok goodChunk] = ([emptyConfig], false) :=
  (C9_thm fromSlice [0xFF] [.ok goodChunk] rfl).trans rfl

/-- C10: decoding a payload succeeds only if it parses as a JSON object with a
`settings` member whose value is itself an object (keys of JSON objects being
strings); the valid-JSON payload `{"timeout":30}` without a `settings` field
is a decode failure, so the handler is not invoked for it and streaming
continues to the next chunk. -/
theorem C10_thm :
    (∀ (p : List Char) (c : ServerConfig), fromSlice p = some c →
      ∃ fields sfields, parseJson p = some (.obj fields) ∧
        (settingsKey, Json.obj sfields) ∈ fields) ∧
    fromSlice timeoutPayload = none ∧
    processStream fromSlice [.ok timeoutChunk, .ok goodChunk] = ([emptyConfig], false) := by
  refine ⟨?_, rfl, rfl⟩
  intro p c h
  unfold fromSlice at h
  cases hp : parseJson p with
  | none => rw [hp] at h; simp at h
  | some j =>
    rw [hp] at h
    replace h : ServerConfig.fromJson j = some c := h
    cases j with
    | null => simp [ServerConfig.fromJson] at h
    | bool b => simp [ServerConfig.fromJson] at h
    | num l => simp [ServerConfig.fromJson] at h
    | str s => simp [ServerConfig.fromJson] at h
    | arr elems => simp [ServerConfig.fromJson] at h
    | obj fields =>
      refine ⟨fields, ?_⟩
      simp only [ServerConfig.fromJson] at h
      split at h
      · rename_i k sfields hf
        refine ⟨sfields, rfl, ?_⟩
        have hmem : (k, Json.obj sfields) ∈
            fields.filter (fun kv => kv.1 == settingsKey) := by
          rw [hf]
          exact List.mem_singleton.mpr rfl
        have hmem2 := List.mem_of_mem_filter hmem
        have hkey : (k == settingsKey) = true := by
          simpa using List.of_mem_filter hmem
        rwa [eq_of_beq hkey] at hmem2
      · simp at h

/-- C10 witness: the well-formed payload decodes, and its parse indeed is an
object containing a `settings` object member. -/
theorem C10_witness :
    ∃ fields sfields, parseJson goodPayload = some (.obj fields) ∧
      (settingsKey, Json.obj sfields) ∈ fields :=
  C10_thm.1 goodPayload emptyConfig rfl
